import Mathlib

/-!
Verification of the data-preparation pipeline in `data.py` (class `AudioPrep`
and its helpers).  The Python code is shallowly embedded: the filesystem is a
flat map from absolute path strings to directory/file entries, Python `dict`s
are association lists with insert-or-overwrite-in-place semantics, numeric
audio data lives in `ℚ`, and every fallible operation returns `Except PyErr`.
External libraries are embedded by their documented algorithms
(`sklearn.preprocessing.minmax_scale`) or by their call signature, shape
behaviour and default arguments (`python_speech_features.mfcc`, whose
transcendental cepstral values are abstracted by an explicit kernel
parameter).
-/

namespace TdnnAsr

set_option maxRecDepth 100000

/-- Python exception classes that the embedded code can raise. -/
inductive PyErr
  | fileNotFoundError    -- `listdir` on a non-existent path
  | indexError           -- list index out of range
  | keyError             -- dict lookup of a missing key
  | isADirectoryError    -- `open` on a directory
  | audioReadError       -- `soundfile.read` on non-audio content
  | conversionError      -- `pydub.AudioSegment.from_file` failure
  deriving Repr, DecidableEq

instance exceptDecEq {ε α : Type} [DecidableEq ε] [DecidableEq α] :
    DecidableEq (Except ε α) := fun x y =>
  match x, y with
  | .ok a, .ok b =>
      if h : a = b then .isTrue (by rw [h]) else .isFalse (by simp [h])
  | .error a, .error b =>
      if h : a = b then .isTrue (by rw [h]) else .isFalse (by simp [h])
  | .ok _, .error _ => .isFalse (by simp)
  | .error _, .ok _ => .isFalse (by simp)

/-! ### Python `dict` as an association list

Python dicts preserve insertion order; assigning to an existing key keeps its
position and overwrites the value.  `items()` iterates in that order. -/

/-- A Python `dict` with keys `α` and values `β`: an ordered association list
without duplicate keys (maintained by `dictInsert`). -/
abbrev Dict (α β : Type) : Type := List (α × β)

/-- `d[k] = v`: overwrite in place if `k` is present, else append. -/
def dictInsert {α β : Type} [DecidableEq α] (d : Dict α β) (k : α) (v : β) :
    Dict α β :=
  match d with
  | [] => [(k, v)]
  | (k', v') :: rest =>
      if k = k' then (k, v) :: rest else (k', v') :: dictInsert rest k v

/-- `k in d.keys()`. -/
def dictContains {α β : Type} [DecidableEq α] (d : Dict α β) (k : α) : Bool :=
  match d with
  | [] => false
  | (k', _) :: rest => k = k' || dictContains rest k

/-- `d.get(k)` as an `Option`. -/
def dictGet? {α β : Type} [DecidableEq α] (d : Dict α β) (k : α) : Option β :=
  match d with
  | [] => none
  | (k', v') :: rest => if k = k' then some v' else dictGet? rest k

/-- `d[k]`: raises `KeyError` when absent. -/
def dictGet {α β : Type} [DecidableEq α] (d : Dict α β) (k : α) :
    Except PyErr β :=
  match dictGet? d k with
  | some v => .ok v
  | none => .error .keyError

/-- `[key for key in d.keys()]`. -/
def dictKeys {α β : Type} (d : Dict α β) : List α := d.map Prod.fst

/-! ### Python string and list primitives -/

/-- Python `list[i]` with negative-index wrap-around; `IndexError` out of
range. -/
def pyIndex {α : Type} (xs : List α) (i : Int) : Except PyErr α :=
  if i ≥ 0 then
    match xs.get? i.toNat with
    | some x => .ok x
    | none => .error .indexError
  else
    match xs.get? (xs.length - (-i).toNat) with
    | some x =>
        if (-i).toNat ≤ xs.length then .ok x else .error .indexError
    | none => .error .indexError

/-- Effective index of a Python slice bound: negative counts from the end,
and the result is clamped to `[0, len]`. -/
def pySliceIdx (len : ℕ) (i : Int) : ℕ :=
  if i < 0 then ((len : Int) + i).toNat else min i.toNat len

/-- Python `s[:i]`. -/
def pySliceTo (s : String) (i : Int) : String :=
  ⟨s.data.take (pySliceIdx s.data.length i)⟩

/-- Python `s[i:]`. -/
def pySliceFrom (s : String) (i : Int) : String :=
  ⟨s.data.drop (pySliceIdx s.data.length i)⟩

/-- Python `lst[:-1]` on a list (used for `phrase[:-1]`). -/
def pyDropLast {α : Type} (xs : List α) : List α := xs.dropLast

/-- Python `s.find(c)`: index of the first occurrence, `-1` when absent. -/
def pyFind (s : String) (c : Char) : Int :=
  match s.data.findIdx? (· = c) with
  | some i => (i : Int)
  | none => -1

/-- Python `s.endswith(suffix)`. -/
def pyEndsWith (s suffix : String) : Bool := suffix.data.isSuffixOf s.data

/-- Python `s.split()`: split on whitespace runs, no empty tokens. -/
def pySplitWs (s : String) : List String :=
  ((s.data.splitOnP (·.isWhitespace)).filter (· ≠ [])).map (⟨·⟩)

/-- Python `s.split('.')[0]`: everything before the first `'.'` (the whole
string when there is none). -/
def pySplitDotHead (s : String) : String := ⟨s.data.takeWhile (· ≠ '.')⟩

/-- `os.path.join a b` (POSIX, `b` relative). -/
def osPathJoin (a b : String) : String := a ++ "/" ++ b

/-! ### Filesystem model

A flat map: a set of directory paths and a map from file paths to contents.
`listdir p` returns the immediate children of `p` (path components contain no
`'/'`).  Text files are stored as their list of lines with trailing newlines
already stripped, matching `[line.rstrip('\n') for line in open(f)]`; audio
files store a rational waveform and a sample rate (what `soundfile.read`
yields). -/

/-- Contents of one file. -/
inductive FileContent
  | text (lines : List String)
  | audio (data : List ℚ) (samplerate : ℕ)
  deriving Repr, DecidableEq

/-- The filesystem state. -/
structure FS where
  dirs : List String
  files : List (String × FileContent)
  deriving Repr

/-- The name of `q` as an immediate child of directory `p`, if it is one. -/
def childName (p q : String) : Option String :=
  let pre := (p ++ "/").data
  if pre.isPrefixOf q.data then
    let rest := q.data.drop pre.length
    if rest.contains '/' || rest.isEmpty then none else some ⟨rest⟩
  else none

/-- `os.path.isdir p`. -/
def FS.isdir (fs : FS) (p : String) : Bool := fs.dirs.contains p

/-- The names `os.listdir p` returns (directories first, then files, in
recording order); only meaningful when `p` is a directory. -/
def FS.children (fs : FS) (p : String) : List String :=
  (fs.dirs ++ fs.files.map Prod.fst).filterMap (childName p)

/-- `os.listdir p`: `FileNotFoundError` when `p` is not a directory. -/
def FS.listdir (fs : FS) (p : String) : Except PyErr (List String) :=
  if fs.isdir p then .ok (fs.children p) else .error .fileNotFoundError

/-- Content of the file at path `p`, if any. -/
def FS.readFile? (fs : FS) (p : String) : Option FileContent :=
  (fs.files.find? (·.1 = p)).map Prod.snd

/-- `[line.rstrip('\n') for line in open(p)]`: fails on a directory or a
missing path. -/
def FS.openLines (fs : FS) (p : String) : Except PyErr (List String) :=
  match fs.readFile? p with
  | some (.text lines) => .ok lines
  | some (.audio _ _) => .error .audioReadError  -- text-decoding binary data fails
  | none => .error .isADirectoryError            -- a listed name that is no file is a directory

/-- `soundfile.read p`: the waveform and the sample rate; fails on non-audio
content. -/
def FS.sfRead (fs : FS) (p : String) : Except PyErr (List ℚ × ℕ) :=
  match fs.readFile? p with
  | some (.audio data sr) => .ok (data, sr)
  | _ => .error .audioReadError

/-- Write (or overwrite) the file at path `p`. -/
def FS.writeFile (fs : FS) (p : String) (c : FileContent) : FS :=
  if (fs.files.find? (·.1 = p)).isSome then
    { fs with files := fs.files.map (fun e => if e.1 = p then (p, c) else e) }
  else
    { fs with files := fs.files ++ [(p, c)] }

/-! ### External numeric libraries -/

/-- A 2-D numeric array: a list of rows. -/
abbrev Matrix' : Type := List (List ℚ)

/-- Minimum of a row (`numpy.min`); `0` for the empty row, on which numpy
would raise — no caller in the embedded code produces an empty row unless
`numcep = 0`. -/
def rowMin (r : List ℚ) : ℚ :=
  match r with
  | [] => 0
  | x :: xs => xs.foldl min x

/-- Maximum of a row (`numpy.max`); `0` for the empty row. -/
def rowMax (r : List ℚ) : ℚ :=
  match r with
  | [] => 0
  | x :: xs => xs.foldl max x

/-- `sklearn.preprocessing.minmax_scale(X, feature_range=(-1, 1), axis=1)`
on one row, by sklearn's documented algorithm: with
`data_range = max - min`, `scale = (1 - (-1)) / handle_zeros(data_range)`
(where a zero range is replaced by 1) and `min_ = -1 - min * scale`, every
entry `x` becomes `x * scale + min_`. -/
def minmaxScaleRow (r : List ℚ) : List ℚ :=
  let dmin := rowMin r
  let dmax := rowMax r
  let range := dmax - dmin
  let scale := 2 / (if range = 0 then 1 else range)
  let mn := -1 - dmin * scale
  r.map (fun x => x * scale + mn)

/-- `minmax_scale(X, feature_range=(-1, 1), axis=1)`: each row (sample)
scaled independently. -/
def minmax_scale (m : Matrix') : Matrix' := m.map minmaxScaleRow

/-- `python_speech_features` frame count (`sigproc.framesig`):
`frame_len = round_half_up(winlen * rate)`,
`frame_step = round_half_up(winstep * rate)`; one frame when the signal is no
longer than a frame, else `1 + ceil((slen - frame_len) / frame_step)`. -/
def psfNumFrames (slen samplerate : ℕ) (winlen winstep : ℚ) : ℕ :=
  let frameLen := ⌊winlen * samplerate + 1/2⌋
  let frameStep := ⌊winstep * samplerate + 1/2⌋
  if (slen : Int) ≤ frameLen then 1
  else (1 + ⌈(((slen : ℚ) - (frameLen : ℚ)) / (frameStep : ℚ))⌉).toNat

/-- The transcendental core of `python_speech_features.mfcc` (pre-emphasis,
windowed FFT power spectrum, Mel filterbank, log, DCT, liftering): abstracted
as an arbitrary kernel giving the cepstral value for a frame/coefficient pair
from the signal, the sample rate and every parameter the library call
receives.  The claims below hold for every kernel; concrete witnesses
instantiate it. -/
def MfccKernel : Type :=
  List ℚ → ℕ → ℚ → ℚ → ℕ → ℕ → ℕ → ℚ → ℕ → ℕ → ℕ → ℚ

/-- `python_speech_features.mfcc` with its library signature and defaults
(`winlen=0.025, winstep=0.01, numcep=13, nfilt=26, nfft=512, preemph=0.97,
ceplifter=22`): a `numframes × numcep` matrix of kernel values. -/
def psf_mfcc (kernel : MfccKernel) (signal : List ℚ) (samplerate : ℕ)
    (winlen : ℚ := 0.025) (winstep : ℚ := 0.01) (numcep : ℕ := 13)
    (nfilt : ℕ := 26) (nfft : ℕ := 512) (preemph : ℚ := 0.97)
    (ceplifter : ℕ := 22) : Matrix' :=
  (List.range (psfNumFrames signal.length samplerate winlen winstep)).map
    (fun i => (List.range numcep).map
      (fun j => kernel signal samplerate winlen winstep numcep nfilt nfft
        preemph ceplifter i j))

/-! ### Module-level constants of `data.py` -/

def PRE_EMPHASIS : ℚ := 0.97
def FRAME_SIZE : ℚ := 0.025
def FRAME_STRIDE : ℚ := 0.01
def nfft : ℕ := 512
def NFILT : ℕ := 40
def NUM_CEPS : ℕ := 12
def CEP_LIFTER : ℕ := 22
def AUDIO_ORIGIN_FORMAT : String := "flac"
def AUDIO_TARGET_FORMAT : String := "wav"

/-! ### The `AudioPrep` object state -/

/-- The mutable state of an `AudioPrep` instance (fields `self._*`).  The
phoneme dictionary produced by the external `beep` module (absent from the
repository) is a parameter of construction. -/
structure AudioPrep where
  path : String
  pre_emphasis : ℚ
  frame_size : ℚ
  frame_stride : ℚ
  NFFT : ℕ
  nfilt : ℕ
  num_ceps : ℕ
  cep_lifter : ℕ
  origin_format : Option String
  target_format : Option String
  phon_dict : Dict String (List String)
  files : Dict String (List String)
  index : Int
  author_indexes : List String
  batch_count : ℕ

/-- `AudioPrep._get_files` body: authors are the immediate subdirectories of
`path`; each author's chapters are the immediate subdirectories of the author
folder (`author_path` passed the `isdir` filter, so its `listdir` cannot
fail and equals `children`). -/
def buildFiles (fs : FS) (path : String) (authorFolders : List String) :
    Dict String (List String) :=
  authorFolders.foldl (fun acc author =>
    let authorPath := osPathJoin path author
    let chapters :=
      (fs.children authorPath).filter (fun d => fs.isdir (osPathJoin authorPath d))
    dictInsert acc author chapters) []

/-- `AudioPrep.__init__`: store the MFCC parameters (each defaulting to the
module constant), leave the conversion formats unset, take the phoneme
dictionary (built by the external `beep` module) as given, and run
`_get_files`, whose `listdir(self._path)` raises when `path` is not a
directory.  `_batch_count = len(self._files)`. -/
def AudioPrep.init (fs : FS) (path : String)
    (phonDict : Dict String (List String))
    (pre_emphasis : Option ℚ := none) (frame_size : Option ℚ := none)
    (frame_stride : Option ℚ := none) (NFFT : Option ℕ := none)
    (nfilt : Option ℕ := none) (num_ceps : Option ℕ := none)
    (cep_lifter : Option ℕ := none) : Except PyErr AudioPrep :=
  match fs.listdir path with
  | .error e => .error e
  | .ok names =>
  let authorFolders := names.filter (fun d => fs.isdir (osPathJoin path d))
  let files := buildFiles fs path authorFolders
  .ok { path := path
        pre_emphasis := pre_emphasis.getD PRE_EMPHASIS
        frame_size := frame_size.getD FRAME_SIZE
        frame_stride := frame_stride.getD FRAME_STRIDE
        NFFT := NFFT.getD nfft
        nfilt := nfilt.getD NFILT
        num_ceps := num_ceps.getD NUM_CEPS
        cep_lifter := cep_lifter.getD CEP_LIFTER
        origin_format := none
        target_format := none
        phon_dict := phonDict
        files := files
        index := -1
        author_indexes := dictKeys files
        batch_count := files.length }

/-- `AudioPrep._get_mfcc`: for each `(key, (audio, samplerate))` pair call
`python_speech_features.mfcc(audio, samplerate)` — note that `self` is never
consulted: none of the parameters stored at construction is passed, so the
library defaults apply.  Returns the keys and the matrices as two aligned
lists. -/
def AudioPrep.getMfcc (_self : AudioPrep) (kernel : MfccKernel)
    (audios : Dict String (List ℚ × ℕ)) : List String × List Matrix' :=
  (dictKeys audios, audios.map (fun kv => psf_mfcc kernel kv.2.1 kv.2.2))

/-- `AudioPrep._scale_data`: scale every matrix with
`minmax_scale(mfcc, feature_range=(-1, 1), axis=1)`, then pair
`keys[i] ↦ audios[i]` for `i in range(len(keys))` (an `IndexError` if the
second list is shorter). -/
def AudioPrep.scaleData (keys : List String) (mfccs : List Matrix') :
    Except PyErr (Dict String Matrix') :=
  let audios := mfccs.map minmax_scale
  (List.range keys.length).foldlM (fun acc i => do
    let k ← pyIndex keys (i : Int)
    let a ← pyIndex audios (i : Int)
    pure (dictInsert acc k a)) []

/-- The `for audio_part in audio_parts` loop of `AudioPrep._convert_audios`:
`AudioSegment.from_file` fails on anything that is not readable audio; the
decode/re-encode round trip is modelled as content-preserving; the export
target is `os.path.join(path, audio_part).split('.')[0]` — the **full path**
truncated at its first `'.'` — plus the target extension.  An exception
leaves the files already exported in place. -/
def convertLoop (fs : FS) (path target : String) :
    List String → (Except PyErr Unit) × FS
  | [] => (.ok (), fs)
  | part :: rest =>
    match fs.readFile? (osPathJoin path part) with
    | some (.audio data sr) =>
        let fs' := fs.writeFile (pySplitDotHead (osPathJoin path part) ++ "." ++ target)
          (.audio data sr)
        convertLoop fs' path target rest
    | _ => (.error .conversionError, fs)

/-- `AudioPrep._convert_audios`: fill in default formats for any unset one,
then convert every file of the origin format in `path`. -/
def AudioPrep.convertAudios (prep : AudioPrep) (fs : FS) (path : String) :
    (Except PyErr Unit) × AudioPrep × FS :=
  let origin := prep.origin_format.getD AUDIO_ORIGIN_FORMAT
  let target := prep.target_format.getD AUDIO_TARGET_FORMAT
  let prep' := { prep with origin_format := some origin, target_format := some target }
  match fs.listdir path with
  | .error e => (.error e, prep', fs)
  | .ok names =>
    let parts := names.filter (fun d => pyEndsWith d ("." ++ origin))
    let (res, fs') := convertLoop fs path target parts
    (res, prep', fs')

/-- The per-word lookup loop of `AudioPrep._get_phoneme_transcription`:
`none` as soon as a word is missing from the dictionary (the `valid = False;
break` path), otherwise the concatenation of the expansions in word order. -/
def phonemesOfWords (dict : Dict String (List String)) :
    List String → Option (List String)
  | [] => some []
  | w :: ws =>
    match dictGet? dict w with
    | some ph => (phonemesOfWords dict ws).map (ph ++ ·)
    | none => none

/-- One iteration of the `for key, transcript in transcriptions.items()`
loop of `_get_phoneme_transcription`: split the transcript on whitespace,
look every word up; an invalid transcript is skipped, a valid one maps to
the concatenated expansion with its final element dropped (`phrase[:-1]`). -/
def phonStep (dict : Dict String (List String))
    (acc : Dict String (List String)) (kv : String × String) :
    Dict String (List String) :=
  match phonemesOfWords dict (pySplitWs kv.2) with
  | some phrase => dictInsert acc kv.1 (pyDropLast phrase)
  | none => acc

/-- `AudioPrep._get_phoneme_transcription`: fold the loop body over the
transcript items, starting from an empty dict. -/
def AudioPrep.getPhonemeTranscription (prep : AudioPrep)
    (transcriptions : Dict String String) : Dict String (List String) :=
  transcriptions.foldl (phonStep prep.phon_dict) []

/-- The two per-chapter accumulators of `AudioPrep.get_data`. -/
structure ChapterAcc where
  transcripts : Dict String String
  audios : Dict String (List ℚ × ℕ)

/-- The transcript-parsing loop of `get_data`: for each line,
`split = line.find(' ')`, then `transcripts[line[:split]] = line[split:]`
(when no space exists, `split = -1` slices off / keeps the last character). -/
def parseTranscriptLines (transcripts : Dict String String)
    (lines : List String) : Dict String String :=
  lines.foldl (fun ts line =>
    let split := pyFind line ' '
    dictInsert ts (pySliceTo line split) (pySliceFrom line split)) transcripts

/-- The audio-reading loop of `get_data`:
`audios[audio_part.split('.')[0]] = sf.read(join(curr_path, audio_part))`
(here the split is on the **file name** only). -/
def readAudios (fs : FS) (currPath : String)
    (audios : Dict String (List ℚ × ℕ)) :
    List String → Except PyErr (Dict String (List ℚ × ℕ))
  | [] => .ok audios
  | part :: rest =>
    match fs.sfRead (osPathJoin currPath part) with
    | .ok ds => readAudios fs currPath (dictInsert audios (pySplitDotHead part) ds) rest
    | .error e => .error e

/-- One iteration of the `for audio in self._files[author]` loop of
`get_data`: pick the first `.txt` file (IndexError when none), parse its
lines, list files of the requested format, convert lazily when none exists
(setting `self._target_format` to `format` first when unset, then
re-listing — the chapter is still a directory because conversion only adds
files), and read all listed audio files. -/
def AudioPrep.processChapter (prep : AudioPrep) (fs : FS)
    (format authorPath : String) (acc : ChapterAcc) (chapter : String) :
    (Except PyErr ChapterAcc) × AudioPrep × FS :=
  let currPath := osPathJoin authorPath chapter
  match fs.listdir currPath with
  | .error e => (.error e, prep, fs)
  | .ok names =>
    match pyIndex (names.filter (fun f => pyEndsWith f ".txt")) 0 with
    | .error e => (.error e, prep, fs)
    | .ok transcriptFile =>
      match fs.openLines (osPathJoin currPath transcriptFile) with
      | .error e => (.error e, prep, fs)
      | .ok lines =>
        let transcripts := parseTranscriptLines acc.transcripts lines
        let audioParts := names.filter (fun d => pyEndsWith d ("." ++ format))
        let (convRes, prep', fs') :=
          if audioParts.isEmpty then
            let prepT :=
              { prep with target_format := some (prep.target_format.getD format) }
            prepT.convertAudios fs currPath
          else (.ok (), prep, fs)
        match convRes with
        | .error e => (.error e, prep', fs')
        | .ok () =>
          let audioParts' :=
            if audioParts.isEmpty then
              (fs'.children currPath).filter (fun d => pyEndsWith d ("." ++ format))
            else audioParts
          match readAudios fs' currPath acc.audios audioParts' with
          | .error e => (.error e, prep', fs')
          | .ok audios => (.ok ⟨transcripts, audios⟩, prep', fs')

/-- The whole `for audio in self._files[author]` loop, threading the
accumulators, the object state and the filesystem; an exception aborts the
loop but keeps the mutations made so far. -/
def AudioPrep.chapterLoop (prep : AudioPrep) (fs : FS)
    (format authorPath : String) (acc : ChapterAcc) :
    List String → (Except PyErr ChapterAcc) × AudioPrep × FS
  | [] => (.ok acc, prep, fs)
  | ch :: rest =>
    match prep.processChapter fs format authorPath acc ch with
    | (.ok acc', prep', fs') => prep'.chapterLoop fs' format authorPath acc' rest
    | (.error e, prep', fs') => (.error e, prep', fs')

/-- One iteration of the result-assembly loop of `get_data`:
`result[key] = (transcript, scaled_mfcc[key])` — a `KeyError` when the
transcribed utterance has no feature matrix. -/
def joinStep (scaledMfcc : Dict String Matrix')
    (res : Dict String (List String × Matrix')) (kv : String × List String) :
    Except PyErr (Dict String (List String × Matrix')) := do
  let m ← dictGet scaledMfcc kv.1
  pure (dictInsert res kv.1 (kv.2, m))

/-- The result-assembly loop of `get_data` over the phoneme-transcript
items. -/
def joinResults (scaledMfcc : Dict String Matrix')
    (phonTranscripts : Dict String (List String)) :
    Except PyErr (Dict String (List String × Matrix')) :=
  phonTranscripts.foldlM (joinStep scaledMfcc) []

/-- `AudioPrep.get_data(format="wav")`.  The cursor `self._index` is
incremented as the first statement; the author is looked up at the new
index (Python list indexing, negative values wrap); after the chapter loop
the MFCC/scale/transcribe/join pipeline runs; finally, only on a successful
run, the cursor is reset to `-1` when `self._index >= self._batch_count - 1`.
The returned triple always carries the object state and filesystem reached,
also when an exception is raised. -/
def AudioPrep.get_data (kernel : MfccKernel) (prep₀ : AudioPrep) (fs : FS)
    (format : String := "wav") :
    (Except PyErr (Dict String (List String × Matrix'))) × AudioPrep × FS :=
  let prep := { prep₀ with index := prep₀.index + 1 }
  match pyIndex prep.author_indexes prep.index with
  | .error e => (.error e, prep, fs)
  | .ok author =>
    let authorPath := osPathJoin prep.path author
    match dictGet prep.files author with
    | .error e => (.error e, prep, fs)
    | .ok chapters =>
      match prep.chapterLoop fs format authorPath ⟨[], []⟩ chapters with
      | (.error e, prep', fs') => (.error e, prep', fs')
      | (.ok acc, prep', fs') =>
        let km := prep'.getMfcc kernel acc.audios
        match AudioPrep.scaleData km.1 km.2 with
        | .error e => (.error e, prep', fs')
        | .ok scaledMfcc =>
          match joinResults scaledMfcc (prep'.getPhonemeTranscription acc.transcripts) with
          | .error e => (.error e, prep', fs')
          | .ok result =>
            let prep'' :=
              if prep'.index ≥ (prep'.batch_count : Int) - 1 then
                { prep' with index := -1 }
              else prep'
            (.ok result, prep'', fs')

/-- `AudioPrep.convert_audios(origin_format, target_format)`: set both
formats, falling back to the module defaults. -/
def AudioPrep.convert_audios_setter (prep : AudioPrep)
    (origin_format : Option String := none)
    (target_format : Option String := none) : AudioPrep :=
  { prep with
    origin_format := some (origin_format.getD AUDIO_ORIGIN_FORMAT)
    target_format := some (target_format.getD AUDIO_TARGET_FORMAT) }

/-! ### Concrete test fixtures

Synthetic corpora used by the concrete theorems: a 3-author corpus (the
spec's own cyclic-iteration scenario), and one-author corpora exercising a
transcribed utterance without audio, duplicate transcript files, a missing
transcript file, an empty transcript text, and a root without author
subdirectories. -/

/-- A degenerate kernel (cepstral values all 0). -/
def kZero : MfccKernel := fun _ _ _ _ _ _ _ _ _ _ _ => 0

/-- A kernel whose value distinguishes frame and coefficient indices. -/
def kIJ : MfccKernel := fun _ _ _ _ _ _ _ _ _ i j => (i : ℚ) + j

/-- The pronunciation dictionary of the spec's examples. -/
def dictCat : Dict String (List String) := [("cat", ["K", "AE", "T", "sil"])]

/-- A fallback `AudioPrep` used only to strip the `Except` wrapper from a
construction that provably succeeds. -/
def dummyPrep : AudioPrep :=
  ⟨"", 0, 0, 0, 0, 0, 0, 0, none, none, [], [], 0, [], 0⟩

/-- 3-author corpus; author `a1` has only a `flac` audio, `a2`/`a3` have
`wav` audio. -/
def fs3 : FS :=
  { dirs := ["r", "r/a1", "r/a2", "r/a3", "r/a1/c", "r/a2/c", "r/a3/c"]
    files := [("r/a1/c/t.txt", .text ["u1 cat"]),
              ("r/a1/c/u1.flac", .audio [1, 2, 3] 16000),
              ("r/a2/c/t.txt", .text ["u2 cat"]),
              ("r/a2/c/u2.wav", .audio [4, 5] 16000),
              ("r/a3/c/t.txt", .text ["u3 cat"]),
              ("r/a3/c/u3.wav", .audio [6] 16000)] }

def prep3 : AudioPrep := (AudioPrep.init fs3 "r" dictCat).toOption.getD dummyPrep

def call1 := prep3.get_data kIJ fs3 "wav"
def call2 := call1.2.1.get_data kIJ call1.2.2 "wav"
def call3 := call2.2.1.get_data kIJ call2.2.2 "wav"
def call4 := call3.2.1.get_data kIJ call3.2.2 "wav"

/-- One-author corpus whose transcript names utterance `u1` but whose only
audio file is `u2.wav`. -/
def fsNoFeat : FS :=
  { dirs := ["r", "r/a", "r/a/c"]
    files := [("r/a/c/t.txt", .text ["u1 cat"]),
              ("r/a/c/u2.wav", .audio [1] 16000)] }

def prepNoFeat : AudioPrep :=
  (AudioPrep.init fsNoFeat "r" dictCat).toOption.getD dummyPrep

/-- One-author corpus whose chapter has two transcript files. -/
def fsTwoTxt : FS :=
  { dirs := ["r", "r/a", "r/a/c"]
    files := [("r/a/c/a.txt", .text ["u1 cat"]),
              ("r/a/c/b.txt", .text ["u9 cat"]),
              ("r/a/c/u1.wav", .audio [1] 16000),
              ("r/a/c/u9.wav", .audio [2] 16000)] }

def prepTwoTxt : AudioPrep :=
  (AudioPrep.init fsTwoTxt "r" dictCat).toOption.getD dummyPrep

/-- One-author corpus whose chapter has no transcript file. -/
def fsNoTxt : FS :=
  { dirs := ["r", "r/a", "r/a/c"]
    files := [("r/a/c/u1.wav", .audio [1] 16000)] }

def prepNoTxt : AudioPrep :=
  (AudioPrep.init fsNoTxt "r" dictCat).toOption.getD dummyPrep

/-- One-author corpus whose transcript line `"u1 "` carries no words. -/
def fsEmptyText : FS :=
  { dirs := ["r", "r/a", "r/a/c"]
    files := [("r/a/c/t.txt", .text ["u1 "]),
              ("r/a/c/u1.wav", .audio [1] 16000)] }

def prepEmptyText : AudioPrep :=
  (AudioPrep.init fsEmptyText "r" dictCat).toOption.getD dummyPrep

/-- A root directory that exists but contains no author subdirectory, only a
stray file. -/
def fsNoAuthors : FS :=
  { dirs := ["r"], files := [("r/stray.txt", .text ["x"])] }

/-! ## Supporting lemmas -/

lemma foldl_min_mem (xs : List ℚ) (x : ℚ) : xs.foldl min x ∈ x :: xs := by
  induction xs generalizing x with
  | nil => simp
  | cons y ys ih =>
    rw [List.foldl_cons]
    rcases List.mem_cons.mp (ih (min x y)) with h' | h'
    · rcases min_choice x y with he | he <;> rw [h', he] <;> simp
    · simp [List.mem_cons, h']

lemma foldl_max_mem (xs : List ℚ) (x : ℚ) : xs.foldl max x ∈ x :: xs := by
  induction xs generalizing x with
  | nil => simp
  | cons y ys ih =>
    rw [List.foldl_cons]
    rcases List.mem_cons.mp (ih (max x y)) with h' | h'
    · rcases max_choice x y with he | he <;> rw [h', he] <;> simp
    · simp [List.mem_cons, h']

lemma foldl_min_le_init (xs : List ℚ) (x : ℚ) : xs.foldl min x ≤ x := by
  induction xs generalizing x with
  | nil => exact le_refl x
  | cons y ys ih =>
    rw [List.foldl_cons]
    exact le_trans (ih (min x y)) (min_le_left x y)

lemma init_le_foldl_max (xs : List ℚ) (x : ℚ) : x ≤ xs.foldl max x := by
  induction xs generalizing x with
  | nil => exact le_refl x
  | cons y ys ih =>
    rw [List.foldl_cons]
    exact le_trans (le_max_left x y) (ih (max x y))

lemma foldl_min_le (xs : List ℚ) (x : ℚ) : ∀ z ∈ x :: xs, xs.foldl min x ≤ z := by
  induction xs generalizing x with
  | nil => intro z hz; simp at hz; simp [hz]
  | cons y ys ih =>
    intro z hz
    rw [List.foldl_cons]
    rcases List.mem_cons.mp hz with h' | h'
    · rw [h']; exact le_trans (foldl_min_le_init ys (min x y)) (min_le_left x y)
    · rcases List.mem_cons.mp h' with h'' | h''
      · rw [h'']; exact le_trans (foldl_min_le_init ys (min x y)) (min_le_right x y)
      · exact ih (min x y) z (List.mem_cons_of_mem _ h'')

lemma foldl_le_max (xs : List ℚ) (x : ℚ) : ∀ z ∈ x :: xs, z ≤ xs.foldl max x := by
  induction xs generalizing x with
  | nil => intro z hz; simp at hz; simp [hz]
  | cons y ys ih =>
    intro z hz
    rw [List.foldl_cons]
    rcases List.mem_cons.mp hz with h' | h'
    · rw [h']; exact le_trans (le_max_left x y) (init_le_foldl_max ys (max x y))
    · rcases List.mem_cons.mp h' with h'' | h''
      · rw [h'']; exact le_trans (le_max_right x y) (init_le_foldl_max ys (max x y))
      · exact ih (max x y) z (List.mem_cons_of_mem _ h'')

lemma rowMin_mem (r : List ℚ) (h : r ≠ []) : rowMin r ∈ r := by
  cases r with
  | nil => exact absurd rfl h
  | cons x xs => exact foldl_min_mem xs x

lemma rowMax_mem (r : List ℚ) (h : r ≠ []) : rowMax r ∈ r := by
  cases r with
  | nil => exact absurd rfl h
  | cons x xs => exact foldl_max_mem xs x

lemma rowMin_le (r : List ℚ) : ∀ z ∈ r, rowMin r ≤ z := by
  cases r with
  | nil => intro z hz; simp at hz
  | cons x xs => exact foldl_min_le xs x

lemma le_rowMax (r : List ℚ) : ∀ z ∈ r, z ≤ rowMax r := by
  cases r with
  | nil => intro z hz; simp at hz
  | cons x xs => exact foldl_le_max xs x

/-! ## Claim C3: normalization of an all-equal row -/

/-- C3, counterexample: the Feature Normalizer maps the all-equal row
`[5, 5, 5]` to `[-1, -1, -1]`, not to the claimed midpoint `0`. -/
theorem c3_counterexample :
    minmax_scale [[5, 5, 5]] = [[-1, -1, -1]] ∧ ((-1 : ℚ) ≠ 0) := by
  constructor
  · with_unfolding_all rfl
  · norm_num

/-- C3 (amended): for every feature-matrix row whose values are all equal,
`_scale_data`'s per-row scaling outputs `-1` — the lower bound of the target
range, per sklearn's zero-range guard — for every entry of that row, and the
scaling divisor is never zero (no division-by-zero/NaN). -/
theorem c3_constant_row_scaling (r : List ℚ) (c : ℚ) (hc : ∀ x ∈ r, x = c) :
    (∀ y ∈ minmaxScaleRow r, y = -1)
    ∧ ∀ s : List ℚ,
        (if rowMax s - rowMin s = 0 then (1 : ℚ) else rowMax s - rowMin s) ≠ 0 := by
  constructor
  · intro y hy
    simp only [minmaxScaleRow, List.mem_map] at hy
    obtain ⟨x, hx, hxy⟩ := hy
    have hne : r ≠ [] := List.ne_nil_of_mem hx
    have hmin : rowMin r = c := hc _ (rowMin_mem r hne)
    have hmax : rowMax r = c := hc _ (rowMax_mem r hne)
    have hxc : x = c := hc _ hx
    rw [← hxy, hxc, hmin, hmax]
    simp only [sub_self, if_pos rfl]
    ring
  · intro s
    split
    · exact one_ne_zero
    · assumption

/-- C3 witness: the amended theorem applied to the concrete all-equal row
`[5, 5, 5]`. -/
theorem c3_constant_row_scaling_witness :
    (∀ y ∈ minmaxScaleRow [5, 5, 5], y = -1)
    ∧ ∀ s : List ℚ,
        (if rowMax s - rowMin s = 0 then (1 : ℚ) else rowMax s - rowMin s) ≠ 0 :=
  c3_constant_row_scaling [5, 5, 5] 5 (by norm_num)

/-! ## Claim C6: normalization of a non-degenerate row -/

/-- C6 (confirmed): on every row with two distinct values, `_scale_data`'s
per-row scaling realizes `scaled = -1 + 2 * (x - min) / (max - min)`; the
minimum maps to `-1`, the maximum to `1`, and every output lies in
`[-1, 1]`. -/
theorem c6_minmax_scaling (r : List ℚ) (a b : ℚ)
    (ha : a ∈ r) (hb : b ∈ r) (hab : a ≠ b) :
    minmaxScaleRow r
        = r.map (fun x => -1 + 2 * (x - rowMin r) / (rowMax r - rowMin r))
    ∧ (-1 : ℚ) ∈ minmaxScaleRow r
    ∧ (1 : ℚ) ∈ minmaxScaleRow r
    ∧ ∀ y ∈ minmaxScaleRow r, -1 ≤ y ∧ y ≤ 1 := by
  have hne : r ≠ [] := List.ne_nil_of_mem ha
  have hlt : rowMin r < rowMax r := by
    rcases lt_or_eq_of_le (rowMin_le r _ (rowMax_mem r hne)) with h | h
    · exact h
    · exfalso
      apply hab
      have h1 : a ≤ rowMax r := le_rowMax r a ha
      have h2 : rowMin r ≤ a := rowMin_le r a ha
      have h3 : b ≤ rowMax r := le_rowMax r b hb
      have h4 : rowMin r ≤ b := rowMin_le r b hb
      rw [← h] at h1 h3
      linarith
  have hMm : rowMax r - rowMin r ≠ 0 := by
    intro h; rw [sub_eq_zero] at h; exact absurd h (ne_of_gt hlt)
  have hform : minmaxScaleRow r
      = r.map (fun x => -1 + 2 * (x - rowMin r) / (rowMax r - rowMin r)) := by
    simp only [minmaxScaleRow, if_neg hMm]
    apply List.map_congr_left
    intro x _
    field_simp
    ring
  refine ⟨hform, ?_, ?_, ?_⟩
  · rw [hform]
    refine List.mem_map.mpr ⟨rowMin r, rowMin_mem r hne, ?_⟩
    rw [sub_self]
    ring
  · rw [hform]
    refine List.mem_map.mpr ⟨rowMax r, rowMax_mem r hne, ?_⟩
    rw [mul_div_assoc, div_self hMm]
    ring
  · rw [hform]
    intro y hy
    simp only [List.mem_map] at hy
    obtain ⟨x, hx, hxy⟩ := hy
    have h1 : rowMin r ≤ x := rowMin_le r x hx
    have h2 : x ≤ rowMax r := le_rowMax r x hx
    have hpos : 0 < rowMax r - rowMin r := sub_pos.mpr hlt
    have hq0 : 0 ≤ (x - rowMin r) / (rowMax r - rowMin r) :=
      div_nonneg (by linarith) (le_of_lt hpos)
    have hq1 : (x - rowMin r) / (rowMax r - rowMin r) ≤ 1 :=
      (div_le_one hpos).mpr (by linarith)
    rw [← hxy, mul_div_assoc]
    constructor
    · linarith
    · linarith

/-- C6 witness: the theorem applied to the concrete row `[1, 2, 3]`. -/
theorem c6_minmax_scaling_witness :
    minmaxScaleRow [1, 2, 3]
        = [1, 2, 3].map
            (fun x => -1 + 2 * (x - rowMin [1, 2, 3]) / (rowMax [1, 2, 3] - rowMin [1, 2, 3]))
    ∧ (-1 : ℚ) ∈ minmaxScaleRow [1, 2, 3]
    ∧ (1 : ℚ) ∈ minmaxScaleRow [1, 2, 3]
    ∧ ∀ y ∈ minmaxScaleRow [1, 2, 3], -1 ≤ y ∧ y ≤ 1 :=
  c6_minmax_scaling [1, 2, 3] 1 2 (by norm_num) (by norm_num) (by norm_num)

section DictLemmas

variable {α β : Type} [DecidableEq α]

lemma dictGet?_insert_self (d : Dict α β) (k : α) (v : β) :
    dictGet? (dictInsert d k v) k = some v := by
  induction d with
  | nil => simp [dictInsert, dictGet?]
  | cons e rest ih =>
    by_cases h : k = e.1
    · simp [dictInsert, h, dictGet?]
    · simp [dictInsert, h, dictGet?, ih]

lemma dictGet?_insert_ne (d : Dict α β) (k : α) (v : β) (k' : α) (h : k' ≠ k) :
    dictGet? (dictInsert d k v) k' = dictGet? d k' := by
  induction d with
  | nil => simp [dictInsert, dictGet?, h]
  | cons e rest ih =>
    by_cases hk : k = e.1
    · subst hk
      simp [dictInsert, dictGet?, h]
    · by_cases hk' : k' = e.1
      · simp [dictInsert, hk, dictGet?, hk']
      · simp [dictInsert, hk, dictGet?, hk', ih]

end DictLemmas

lemma phonStep_get_ne (dict : Dict String (List String))
    (acc : Dict String (List String)) (kv : String × String) (k : String)
    (h : k ≠ kv.1) :
    dictGet? (phonStep dict acc kv) k = dictGet? acc k := by
  unfold phonStep
  cases phonemesOfWords dict (pySplitWs kv.2) with
  | none => rfl
  | some phrase => exact dictGet?_insert_ne acc kv.1 (pyDropLast phrase) k h

lemma foldl_phonStep_not_mem (dict : Dict String (List String))
    (ts : List (String × String)) (acc : Dict String (List String)) (k : String)
    (h : k ∉ ts.map Prod.fst) :
    dictGet? (ts.foldl (phonStep dict) acc) k = dictGet? acc k := by
  induction ts generalizing acc with
  | nil => rfl
  | cons kv rest ih =>
    simp only [List.map_cons, List.mem_cons, not_or] at h
    rw [List.foldl_cons, ih _ h.2, phonStep_get_ne dict acc kv k h.1]

lemma foldl_phonStep_get (dict : Dict String (List String))
    (ts : List (String × String)) (acc : Dict String (List String)) (k : String)
    (hnd : (ts.map Prod.fst).Nodup)
    (hacc : ∀ k' ∈ ts.map Prod.fst, dictGet? acc k' = none) :
    dictGet? (ts.foldl (phonStep dict) acc) k
      = (dictGet? ts k).elim (dictGet? acc k)
          (fun text => (phonemesOfWords dict (pySplitWs text)).map pyDropLast) := by
  induction ts generalizing acc with
  | nil => simp [dictGet?]
  | cons kv rest ih =>
    obtain ⟨k₀, t₀⟩ := kv
    simp only [List.map_cons, List.nodup_cons] at hnd
    rw [List.foldl_cons]
    by_cases hk : k = k₀
    · subst hk
      have hrest : k ∉ rest.map Prod.fst := hnd.1
      have hget : dictGet? ((k, t₀) :: rest) k = some t₀ := by
        simp [dictGet?]
      rw [foldl_phonStep_not_mem dict rest _ k hrest, hget]
      simp only [Option.elim]
      unfold phonStep
      cases hp : phonemesOfWords dict (pySplitWs t₀) with
      | none =>
        simp only [Option.map_none']
        exact hacc k (by simp)
      | some phrase =>
        simp only [Option.map_some']
        exact dictGet?_insert_self acc k (pyDropLast phrase)
    · have step1 : dictGet? ((k₀, t₀) :: rest) k = dictGet? rest k := by
        simp [dictGet?, hk]
      rw [step1,
        ih _ hnd.2 (fun k' hk' => by
          have hne : k' ≠ k₀ := fun he => hnd.1 (he ▸ hk')
          rw [phonStep_get_ne dict acc (k₀, t₀) k' hne]
          exact hacc k' (by simp [hk']))]
      rw [phonStep_get_ne dict acc (k₀, t₀) k hk]

lemma phonemesOfWords_all_present (dict : Dict String (List String))
    (ws : List String) (h : ∀ w ∈ ws, (dictGet? dict w).isSome) :
    phonemesOfWords dict ws
      = some (ws.map (fun w => (dictGet? dict w).getD [])).flatten := by
  induction ws with
  | nil => simp [phonemesOfWords]
  | cons w rest ih =>
    obtain ⟨ph, hph⟩ := Option.isSome_iff_exists.mp (h w (by simp))
    rw [phonemesOfWords, hph, ih (fun w' hw' => h w' (by simp [hw']))]
    simp [hph]

lemma phonemesOfWords_missing (dict : Dict String (List String))
    (ws : List String) (h : ∃ w ∈ ws, dictGet? dict w = none) :
    phonemesOfWords dict ws = none := by
  induction ws with
  | nil => simp at h
  | cons w rest ih =>
    rw [phonemesOfWords]
    cases hw : dictGet? dict w with
    | none => rfl
    | some ph =>
      obtain ⟨w', hw', hn⟩ := h
      rcases List.mem_cons.mp hw' with he | he
      · rw [he] at hn; rw [hn] at hw; cases hw
      · rw [ih ⟨w', he, hn⟩]; rfl

/-! ## Claim C5: transcript decoding -/

/-- C5 (confirmed): `_get_phoneme_transcription` maps each transcript key to
the whitespace-tokenized, dictionary-expanded phoneme concatenation with the
final element dropped; an utterance whose text has any out-of-dictionary
word is absent from the output (no partial entry, no error), and a fully
in-dictionary text expands to the in-order concatenation of the word
expansions. -/
theorem c5_transcript_decoder (prep : AudioPrep) (ts : Dict String String)
    (hnd : (dictKeys ts).Nodup) :
    (∀ k, dictGet? (prep.getPhonemeTranscription ts) k
        = (dictGet? ts k).bind
            (fun text =>
              (phonemesOfWords prep.phon_dict (pySplitWs text)).map pyDropLast))
    ∧ (∀ ws : List String,
        ((∀ w ∈ ws, (dictGet? prep.phon_dict w).isSome) →
          phonemesOfWords prep.phon_dict ws
            = some (ws.map (fun w => (dictGet? prep.phon_dict w).getD [])).flatten)
        ∧ ((∃ w ∈ ws, dictGet? prep.phon_dict w = none) →
          phonemesOfWords prep.phon_dict ws = none)) := by
  constructor
  · intro k
    rw [AudioPrep.getPhonemeTranscription,
      foldl_phonStep_get prep.phon_dict ts [] k hnd (fun _ _ => rfl)]
    cases dictGet? ts k <;> rfl
  · intro ws
    exact ⟨phonemesOfWords_all_present prep.phon_dict ws,
      phonemesOfWords_missing prep.phon_dict ws⟩

/-- C5 witness: the theorem at the spec's own example — dictionary
`{"cat": ["K","AE","T","sil"]}`, where `"the cat"` is excluded (unknown word
`"the"`) while `"cat"` yields `["K","AE","T"]`. -/
theorem c5_transcript_decoder_witness :
    ((∀ k, dictGet? (prep3.getPhonemeTranscription [("u1", "the cat"), ("u2", "cat")]) k
        = (dictGet? [("u1", "the cat"), ("u2", "cat")] k).bind
            (fun text =>
              (phonemesOfWords prep3.phon_dict (pySplitWs text)).map pyDropLast))
    ∧ (∀ ws : List String,
        ((∀ w ∈ ws, (dictGet? prep3.phon_dict w).isSome) →
          phonemesOfWords prep3.phon_dict ws
            = some (ws.map (fun w => (dictGet? prep3.phon_dict w).getD [])).flatten)
        ∧ ((∃ w ∈ ws, dictGet? prep3.phon_dict w = none) →
          phonemesOfWords prep3.phon_dict ws = none)))
    ∧ prep3.getPhonemeTranscription [("u1", "the cat"), ("u2", "cat")]
        = [("u2", ["K", "AE", "T"])] :=
  ⟨c5_transcript_decoder prep3 [("u1", "the cat"), ("u2", "cat")] (by decide),
   by with_unfolding_all rfl⟩

/-! ## Claim C2: MFCC extraction parameters and shape -/

/-- C2 (code bug): `_get_mfcc` never consults the object state — its result
is the same for any two differently-configured `AudioPrep` instances — and
every row of every matrix it returns has 13 entries (the
`python_speech_features` default `numcep=13`), not the configured
`num_ceps`, whose stored default `NUM_CEPS` is 12 (as on the
default-constructed `prep3`). -/
theorem c2_mfcc_ignores_configuration :
    (∀ (p q : AudioPrep) (kernel : MfccKernel) (audios : Dict String (List ℚ × ℕ)),
        p.getMfcc kernel audios = q.getMfcc kernel audios)
    ∧ (∀ (p : AudioPrep) (kernel : MfccKernel) (audios : Dict String (List ℚ × ℕ)),
        ∀ m ∈ (p.getMfcc kernel audios).2, ∀ row ∈ m, row.length = 13)
    ∧ NUM_CEPS = 12
    ∧ prep3.num_ceps = 12
    ∧ ∀ row ∈ psf_mfcc kIJ [1, 2, 3] 16000, row.length = 13 := by
  refine ⟨fun _ _ _ _ => rfl, ?_, rfl, by with_unfolding_all rfl, ?_⟩
  · intro p kernel audios m hm row hrow
    simp only [AudioPrep.getMfcc, List.mem_map] at hm
    obtain ⟨kv, _, hkv⟩ := hm
    rw [← hkv] at hrow
    simp only [psf_mfcc, List.mem_map] at hrow
    obtain ⟨i, _, hi⟩ := hrow
    rw [← hi]
    simp
  · intro row hrow
    simp only [psf_mfcc, List.mem_map] at hrow
    obtain ⟨i, _, hi⟩ := hrow
    rw [← hi]
    simp

/-! ## Claim C8: construction errors -/

/-- C8, counterexample: on a root directory that exists but has no author
subdirectory (`fsNoAuthors`), construction succeeds (no error of any kind)
with zero batches, refuting "fails … whenever the corpus root … contains no
author subdirectories". -/
theorem c8_counterexample :
    (AudioPrep.init fsNoAuthors "r" dictCat).isOk = true
    ∧ ((AudioPrep.init fsNoAuthors "r" dictCat).toOption.getD dummyPrep).batch_count
        = 0 := by
  constructor
  · with_unfolding_all rfl
  · with_unfolding_all rfl

/-- C8 (amended): construction fails — with the builtin `FileNotFoundError`
raised by `listdir`, no dedicated error class exists — exactly when the root
path is not a directory; a root without author subdirectories constructs
successfully with `batch_count = 0`, and the malformed layout only surfaces
at the first `get_data` call as an `IndexError`. -/
theorem c8_construction_errors (fs : FS) (path : String)
    (phonDict : Dict String (List String)) :
    (fs.isdir path = false →
      AudioPrep.init fs path phonDict = .error .fileNotFoundError)
    ∧ (fs.isdir path = true → (AudioPrep.init fs path phonDict).isOk = true)
    ∧ (∀ prep, AudioPrep.init fs path phonDict = .ok prep →
        prep.index = -1
        ∧ prep.files = buildFiles fs path
            ((fs.children path).filter (fun d => fs.isdir (osPathJoin path d)))
        ∧ prep.batch_count = prep.files.length
        ∧ prep.author_indexes = dictKeys prep.files)
    ∧ ((fs.children path).filter (fun d => fs.isdir (osPathJoin path d)) = [] →
        ∀ prep, AudioPrep.init fs path phonDict = .ok prep →
          prep.batch_count = 0
          ∧ ∀ (kernel : MfccKernel) (fsx : FS) (format : String),
              (prep.get_data kernel fsx format).1 = .error .indexError) := by
  have hinit : ∀ prep, AudioPrep.init fs path phonDict = .ok prep →
      prep.index = -1
      ∧ prep.files = buildFiles fs path
          ((fs.children path).filter (fun d => fs.isdir (osPathJoin path d)))
      ∧ prep.batch_count = prep.files.length
      ∧ prep.author_indexes = dictKeys prep.files := by
    intro prep hp
    simp only [AudioPrep.init] at hp
    cases hl : fs.listdir path with
    | error e => rw [hl] at hp; cases hp
    | ok names =>
      rw [hl] at hp
      simp only [Except.ok.injEq] at hp
      have hnames : names = fs.children path := by
        revert hl
        simp only [FS.listdir]
        split
        · intro he; cases he; rfl
        · intro he; cases he
      subst hnames
      rw [← hp]
      exact ⟨rfl, rfl, rfl, rfl⟩
  refine ⟨?_, ?_, hinit, ?_⟩
  · intro h
    simp [AudioPrep.init, FS.listdir, h]
  · intro h
    simp [AudioPrep.init, FS.listdir, h, Except.isOk, Except.toBool]
  · intro h0 prep hp
    obtain ⟨hidx, hfiles, hbc, hai⟩ := hinit prep hp
    rw [h0] at hfiles
    have hf : prep.files = [] := by rw [hfiles]; rfl
    constructor
    · rw [hbc, hf]; rfl
    · intro kernel fsx format
      have hai' : prep.author_indexes = [] := by rw [hai, hf]; rfl
      simp only [AudioPrep.get_data, hai']
      have : pyIndex ([] : List String) (prep.index + 1) = .error .indexError := by
        unfold pyIndex
        split <;> simp
      rw [this]

/-- C8 witness: the amended theorem applied to the stray-file corpus
`fsNoAuthors` (whose root exists but has no author folder), yielding a
successful zero-batch construction whose first `get_data` call raises
`IndexError`. -/
theorem c8_construction_errors_witness :
    ((AudioPrep.init fsNoAuthors "r" dictCat).toOption.getD dummyPrep).batch_count = 0
    ∧ ∀ (kernel : MfccKernel) (fsx : FS) (format : String),
        ((((AudioPrep.init fsNoAuthors "r" dictCat).toOption.getD dummyPrep)).get_data
            kernel fsx format).1 = .error .indexError :=
  (c8_construction_errors fsNoAuthors "r" dictCat).2.2.2 (by decide)
    ((AudioPrep.init fsNoAuthors "r" dictCat).toOption.getD dummyPrep)
    (by with_unfolding_all rfl)

/-! ## Claim C7: transcript-file selection -/

/-- C7, counterexample: on a chapter with two transcript files (`a.txt` and
`b.txt` in `fsTwoTxt`), the batch call succeeds — no
`AmbiguousTranscriptError`, no failure at all: the first listed transcript
file is used, so utterance `u1` (from `a.txt`) is returned and `u9` (from
`b.txt`) is silently dropped by the vocabulary join. -/
theorem c7_counterexample :
    (prepTwoTxt.get_data kZero fsTwoTxt "wav").1
      = .ok [("u1", (["K", "AE", "T"], [List.replicate 13 (-1 : ℚ)]))] := by
  with_unfolding_all rfl

/-- C7 (amended): a chapter directory with zero transcript files makes the
batch call fail — with the builtin `IndexError` from `[...][0]`, no
dedicated error class exists — while a directory with more than one
transcript file causes no error: the first one in listing order is used. -/
theorem c7_transcript_selection (prep : AudioPrep) (fs : FS)
    (format authorPath ch : String) (acc : ChapterAcc) (names : List String)
    (hld : fs.listdir (osPathJoin authorPath ch) = .ok names) :
    (names.filter (fun f => pyEndsWith f ".txt") = [] →
      prep.processChapter fs format authorPath acc ch = (.error .indexError, prep, fs))
    ∧ ∀ t rest, names.filter (fun f => pyEndsWith f ".txt") = t :: rest →
        pyIndex (names.filter (fun f => pyEndsWith f ".txt")) 0 = .ok t := by
  constructor
  · intro h0
    simp only [AudioPrep.processChapter, hld, h0]
    simp [pyIndex]
  · intro t rest ht
    rw [ht]
    simp [pyIndex]

/-- C7 witness: the amended theorem applied to the transcript-less chapter
of `fsNoTxt`, whose batch call indeed raises `IndexError`. -/
theorem c7_transcript_selection_witness :
    (prepNoTxt.processChapter fsNoTxt "wav" "r/a" ⟨[], []⟩ "c"
        = (.error .indexError, prepNoTxt, fsNoTxt))
    ∧ (prepNoTxt.get_data kZero fsNoTxt "wav").1 = .error .indexError :=
  ⟨(c7_transcript_selection prepNoTxt fsNoTxt "wav" "r/a" "c" ⟨[], []⟩
      (fsNoTxt.children "r/a/c") (by with_unfolding_all rfl)).1
      (by with_unfolding_all rfl),
   by with_unfolding_all rfl⟩

/-! ## State-threading lemmas for the batch pipeline -/

/-- `_convert_audios` only sets the two conversion formats on the object. -/
lemma convertAudios_prep (prep : AudioPrep) (fs : FS) (path : String) :
    (prep.convertAudios fs path).2.1
      = { prep with
          origin_format := some (prep.origin_format.getD AUDIO_ORIGIN_FORMAT)
          target_format := some (prep.target_format.getD AUDIO_TARGET_FORMAT) } := by
  unfold AudioPrep.convertAudios
  cases fs.listdir path <;> simp

/-- `processChapter` either leaves the object untouched or (when it converts)
only sets the two conversion formats. -/
lemma processChapter_prep (prep : AudioPrep) (fs : FS)
    (format authorPath : String) (acc : ChapterAcc) (ch : String) :
    (prep.processChapter fs format authorPath acc ch).2.1 = prep
    ∨ (prep.processChapter fs format authorPath acc ch).2.1
        = { prep with
            origin_format := some (prep.origin_format.getD AUDIO_ORIGIN_FORMAT)
            target_format := some (prep.target_format.getD format) } := by
  simp only [AudioPrep.processChapter]
  split
  · exact Or.inl rfl
  · split
    · exact Or.inl rfl
    · split
      · exact Or.inl rfl
      · have hsel : ∀ (C : Bool) (fsx : FS) (pth : String),
            ((if C = true then
                ({ prep with
                    target_format := some (prep.target_format.getD format) } :
                  AudioPrep).convertAudios fsx pth
              else (Except.ok (), prep, fsx)) :
              (Except PyErr Unit) × AudioPrep × FS).2.1 = prep
            ∨ ((if C = true then
                ({ prep with
                    target_format := some (prep.target_format.getD format) } :
                  AudioPrep).convertAudios fsx pth
              else (Except.ok (), prep, fsx)) :
              (Except PyErr Unit) × AudioPrep × FS).2.1
                = { prep with
                    origin_format := some (prep.origin_format.getD AUDIO_ORIGIN_FORMAT)
                    target_format := some (prep.target_format.getD format) } := by
          intro C fsx pth
          cases C with
          | false => exact Or.inl rfl
          | true =>
            right
            rw [if_pos rfl, convertAudios_prep]
            simp
        split
        · exact hsel _ _ _
        · split
          · exact hsel _ _ _
          · exact hsel _ _ _

/-- `processChapter` never changes the cursor, the corpus index or the
configuration other than the conversion formats. -/
lemma processChapter_fields (prep : AudioPrep) (fs : FS)
    (format authorPath : String) (acc : ChapterAcc) (ch : String) :
    (prep.processChapter fs format authorPath acc ch).2.1.index = prep.index
    ∧ (prep.processChapter fs format authorPath acc ch).2.1.batch_count = prep.batch_count
    ∧ (prep.processChapter fs format authorPath acc ch).2.1.author_indexes = prep.author_indexes
    ∧ (prep.processChapter fs format authorPath acc ch).2.1.files = prep.files
    ∧ (prep.processChapter fs format authorPath acc ch).2.1.path = prep.path
    ∧ (prep.processChapter fs format authorPath acc ch).2.1.phon_dict = prep.phon_dict := by
  rcases processChapter_prep prep fs format authorPath acc ch with h | h <;>
    rw [h] <;> exact ⟨rfl, rfl, rfl, rfl, rfl, rfl⟩

/-- The chapter loop preserves the same fields as each of its steps. -/
lemma chapterLoop_fields (format authorPath : String) :
    ∀ (chs : List String) (prep : AudioPrep) (fs : FS) (acc : ChapterAcc),
      (prep.chapterLoop fs format authorPath acc chs).2.1.index = prep.index
      ∧ (prep.chapterLoop fs format authorPath acc chs).2.1.batch_count = prep.batch_count
      ∧ (prep.chapterLoop fs format authorPath acc chs).2.1.author_indexes = prep.author_indexes
      ∧ (prep.chapterLoop fs format authorPath acc chs).2.1.files = prep.files
      ∧ (prep.chapterLoop fs format authorPath acc chs).2.1.path = prep.path
      ∧ (prep.chapterLoop fs format authorPath acc chs).2.1.phon_dict = prep.phon_dict := by
  intro chs
  induction chs with
  | nil => intro prep fs acc; exact ⟨rfl, rfl, rfl, rfl, rfl, rfl⟩
  | cons ch rest ih =>
    intro prep fs acc
    have hf := processChapter_fields prep fs format authorPath acc ch
    rcases hpc : prep.processChapter fs format authorPath acc ch with ⟨res, prep', fs'⟩
    rw [hpc] at hf
    simp only at hf
    simp only [AudioPrep.chapterLoop, hpc]
    cases res with
    | error e => exact hf
    | ok acc' =>
      obtain ⟨g1, g2, g3, g4, g5, g6⟩ := ih prep' fs' acc'
      exact ⟨g1.trans hf.1, g2.trans hf.2.1, g3.trans hf.2.2.1,
        g4.trans hf.2.2.2.1, g5.trans hf.2.2.2.2.1, g6.trans hf.2.2.2.2.2⟩

/-- State evolution of one `get_data` call: the corpus data never changes,
the cursor is the incremented one when any exception escapes, and the
incremented-or-reset one on success. -/
lemma get_data_state (kernel : MfccKernel) (prep : AudioPrep) (fs : FS)
    (format : String) :
    (prep.get_data kernel fs format).2.1.batch_count = prep.batch_count
    ∧ (prep.get_data kernel fs format).2.1.author_indexes = prep.author_indexes
    ∧ (prep.get_data kernel fs format).2.1.path = prep.path
    ∧ (prep.get_data kernel fs format).2.1.files = prep.files
    ∧ (prep.get_data kernel fs format).2.1.phon_dict = prep.phon_dict
    ∧ (∀ e, (prep.get_data kernel fs format).1 = .error e →
        (prep.get_data kernel fs format).2.1.index = prep.index + 1)
    ∧ (∀ r, (prep.get_data kernel fs format).1 = .ok r →
        (prep.get_data kernel fs format).2.1.index
          = if prep.index + 1 ≥ (prep.batch_count : Int) - 1 then -1
            else prep.index + 1) := by
  simp only [AudioPrep.get_data]
  split
  · exact ⟨rfl, rfl, rfl, rfl, rfl, fun e _ => rfl, fun r h => by cases h⟩
  · split
    · exact ⟨rfl, rfl, rfl, rfl, rfl, fun e _ => rfl, fun r h => by cases h⟩
    · rename_i x1 author h1 x2 chapters h2
      have hcl := chapterLoop_fields format
        (osPathJoin ({ prep with index := prep.index + 1 } : AudioPrep).path author)
        chapters { prep with index := prep.index + 1 } fs ⟨[], []⟩
      split
      · rename_i e prep' fs' heq
        rw [heq] at hcl
        have hidx : prep'.index = prep.index + 1 := hcl.1
        have hbc : prep'.batch_count = prep.batch_count := hcl.2.1
        have hai : prep'.author_indexes = prep.author_indexes := hcl.2.2.1
        have hfi : prep'.files = prep.files := hcl.2.2.2.1
        have hpa : prep'.path = prep.path := hcl.2.2.2.2.1
        have hpd : prep'.phon_dict = prep.phon_dict := hcl.2.2.2.2.2
        exact ⟨hbc, hai, hpa, hfi, hpd, fun e' _ => hidx, fun r h => by cases h⟩
      · rename_i acc prep' fs' heq
        rw [heq] at hcl
        have hidx : prep'.index = prep.index + 1 := hcl.1
        have hbc : prep'.batch_count = prep.batch_count := hcl.2.1
        have hai : prep'.author_indexes = prep.author_indexes := hcl.2.2.1
        have hfi : prep'.files = prep.files := hcl.2.2.2.1
        have hpa : prep'.path = prep.path := hcl.2.2.2.2.1
        have hpd : prep'.phon_dict = prep.phon_dict := hcl.2.2.2.2.2
        split
        · exact ⟨hbc, hai, hpa, hfi, hpd, fun e' _ => hidx, fun r h => by cases h⟩
        · split
          · exact ⟨hbc, hai, hpa, hfi, hpd, fun e' _ => hidx, fun r h => by cases h⟩
          · by_cases hcond : prep'.index ≥ (prep'.batch_count : Int) - 1
            · have hc2 : prep.index + 1 ≥ (prep.batch_count : Int) - 1 := by
                rw [hidx, hbc] at hcond; exact hcond
              refine ⟨?_, ?_, ?_, ?_, ?_, ?_, ?_⟩
              · simp only [if_pos hcond]; exact hbc
              · simp only [if_pos hcond]; exact hai
              · simp only [if_pos hcond]; exact hpa
              · simp only [if_pos hcond]; exact hfi
              · simp only [if_pos hcond]; exact hpd
              · intro e he; cases he
              · intro r _
                simp only [if_pos hcond, if_pos hc2]
            · have hc2 : ¬ prep.index + 1 ≥ (prep.batch_count : Int) - 1 := by
                rw [hidx, hbc] at hcond; exact hcond
              refine ⟨?_, ?_, ?_, ?_, ?_, ?_, ?_⟩
              · simp only [if_neg hcond]; exact hbc
              · simp only [if_neg hcond]; exact hai
              · simp only [if_neg hcond]; exact hpa
              · simp only [if_neg hcond]; exact hfi
              · simp only [if_neg hcond]; exact hpd
              · intro e he; cases he
              · intro r _
                simp only [if_neg hcond, if_neg hc2]
                exact hidx

/-! ## Claim C4: cyclic cursor iteration -/

/-- C4 (confirmed): the cursor starts at `-1` after construction; every
successful `get_data` call serves the author at the incremented cursor and
leaves the cursor incremented, except that after serving the last author
(`index + 1 ≥ batch_count - 1`) it resets to `-1`; on the synthetic 3-author
corpus the cursors of four consecutive calls are `0, 1, -1, 0` and the 4th
call returns exactly the 1st call's result — the iteration is cyclic. -/
theorem c4_cursor_cycle :
    (∀ (fs : FS) (path : String) (phonDict : Dict String (List String))
        (prep : AudioPrep),
        AudioPrep.init fs path phonDict = .ok prep → prep.index = -1)
    ∧ (∀ (kernel : MfccKernel) (prep : AudioPrep) (fs : FS) (format : String)
        (r : Dict String (List String × Matrix')),
        (prep.get_data kernel fs format).1 = .ok r →
          (∃ author, pyIndex prep.author_indexes (prep.index + 1) = .ok author)
          ∧ (prep.get_data kernel fs format).2.1.index
              = if prep.index + 1 ≥ (prep.batch_count : Int) - 1 then -1
                else prep.index + 1)
    ∧ prep3.index = -1
    ∧ prep3.batch_count = 3
    ∧ (call1.2.1.index, call2.2.1.index, call3.2.1.index, call4.2.1.index)
        = (0, 1, -1, 0)
    ∧ call1.1 = call4.1 := by
  refine ⟨?_, ?_, ?_, ?_, ?_, ?_⟩
  · intro fs path phonDict prep hp
    simp only [AudioPrep.init] at hp
    cases hl : fs.listdir path with
    | error e => rw [hl] at hp; cases hp
    | ok names =>
      rw [hl] at hp
      simp only [Except.ok.injEq] at hp
      rw [← hp]
  · intro kernel prep fs format r hok
    refine ⟨?_, (get_data_state kernel prep fs format).2.2.2.2.2.2 r hok⟩
    revert hok
    simp only [AudioPrep.get_data]
    split
    · intro h; simp at h
    · rename_i x author h1
      intro _
      exact ⟨author, h1⟩
  · with_unfolding_all rfl
  · with_unfolding_all rfl
  · with_unfolding_all rfl
  · with_unfolding_all rfl

/-- C4 witness: the cursor clause of the theorem applied to the first call
on the 3-author corpus. -/
theorem c4_cursor_cycle_witness :
    (∃ author, pyIndex prep3.author_indexes (prep3.index + 1) = .ok author)
    ∧ (prep3.get_data kIJ fs3 "wav").2.1.index
        = if prep3.index + 1 ≥ (prep3.batch_count : Int) - 1 then -1
          else prep3.index + 1 :=
  c4_cursor_cycle.2.1 kIJ prep3 fs3 "wav" (call1.1.toOption.getD [])
    (by with_unfolding_all rfl)

/-! ## Claim C10: cursor mutation order and failed calls -/

/-- C10 (confirmed): the increment is the call's first mutation and the
wrap-around reset its last — so a call that raises any exception still
leaves the cursor advanced by one (the failed author is consumed), a
failure while serving the last author leaves the cursor at
`batch_count - 1` (the reset is skipped), and only a successful call resets
it to `-1`. -/
theorem c10_cursor_on_error (kernel : MfccKernel) (prep : AudioPrep)
    (fs : FS) (format : String) :
    (∀ e, (prep.get_data kernel fs format).1 = .error e →
        (prep.get_data kernel fs format).2.1.index = prep.index + 1)
    ∧ (∀ e, (prep.get_data kernel fs format).1 = .error e →
        prep.index + 1 = (prep.batch_count : Int) - 1 →
        (prep.get_data kernel fs format).2.1.index
          = (prep.batch_count : Int) - 1)
    ∧ (∀ r, (prep.get_data kernel fs format).1 = .ok r →
        (prep.get_data kernel fs format).2.1.index
          = if prep.index + 1 ≥ (prep.batch_count : Int) - 1 then -1
            else prep.index + 1) := by
  have h := get_data_state kernel prep fs format
  refine ⟨h.2.2.2.2.2.1, ?_, h.2.2.2.2.2.2⟩
  intro e he hlast
  rw [h.2.2.2.2.2.1 e he, hlast]

/-- C10 witness: the corpus whose transcript names an utterance without
audio makes `get_data` raise `KeyError`, and the cursor is left advanced at
`prepNoFeat.index + 1 = 0`: the failed author is consumed. -/
theorem c10_cursor_on_error_witness :
    (prepNoFeat.get_data kZero fsNoFeat "wav").1 = .error .keyError
    ∧ (prepNoFeat.get_data kZero fsNoFeat "wav").2.1.index
        = prepNoFeat.index + 1
    ∧ prepNoFeat.index + 1 = 0 :=
  ⟨by with_unfolding_all rfl,
   (c10_cursor_on_error kZero prepNoFeat fsNoFeat "wav").1 .keyError
     (by with_unfolding_all rfl),
   by with_unfolding_all rfl⟩

/-! ## Claim C9: lazy format conversion -/

/-- C9 (confirmed): within a chapter, `_convert_audios` is invoked iff the
directory listing has no name with the requested target extension — when one
exists, the whole chapter step changes neither the object nor the
filesystem; when none exists, the step's object and filesystem are exactly
those produced by `_convert_audios`.  Concretely on the 3-author corpus:
author `a1` starts without `u1.wav`, the first call creates it by
conversion, and the 4th call (revisiting `a1`) leaves the filesystem
untouched — no second conversion pass. -/
theorem c9_lazy_conversion (prep : AudioPrep) (fs : FS)
    (format authorPath ch : String) (acc : ChapterAcc) (names : List String)
    (hld : fs.listdir (osPathJoin authorPath ch) = .ok names) :
    (names.filter (fun d => pyEndsWith d ("." ++ format)) ≠ [] →
      ∃ r, prep.processChapter fs format authorPath acc ch = (r, prep, fs))
    ∧ (∀ t lines,
        pyIndex (names.filter (fun f => pyEndsWith f ".txt")) 0 = .ok t →
        fs.openLines (osPathJoin (osPathJoin authorPath ch) t) = .ok lines →
        names.filter (fun d => pyEndsWith d ("." ++ format)) = [] →
        (prep.processChapter fs format authorPath acc ch).2
            = (({ prep with
                  target_format := some (prep.target_format.getD format) } :
                AudioPrep).convertAudios fs (osPathJoin authorPath ch)).2)
    ∧ fs3.readFile? "r/a1/c/u1.wav" = none
    ∧ call1.2.2.readFile? "r/a1/c/u1.wav" = some (.audio [1, 2, 3] 16000)
    ∧ call4.2.2 = call3.2.2 := by
  refine ⟨?_, ?_, ?_, ?_, ?_⟩
  · intro hne
    have hie : (names.filter (fun d => pyEndsWith d ("." ++ format))).isEmpty
        = false := by
      cases hfe : names.filter (fun d => pyEndsWith d ("." ++ format)) with
      | nil => exact absurd hfe hne
      | cons a l => rfl
    simp only [AudioPrep.processChapter, hld, hie, Bool.false_eq_true,
      if_false]
    split
    · exact ⟨_, rfl⟩
    · split
      · exact ⟨_, rfl⟩
      · split
        · exact ⟨_, rfl⟩
        · exact ⟨_, rfl⟩
  · intro t lines htf hol hfe
    have hie : (names.filter (fun d => pyEndsWith d ("." ++ format))).isEmpty
        = true := by rw [hfe]; rfl
    simp only [AudioPrep.processChapter, hld, htf, hol, hie, if_true]
    rcases hC : ({ prep with
        target_format := some (prep.target_format.getD format) } :
          AudioPrep).convertAudios fs (osPathJoin authorPath ch) with
      ⟨convRes, prep', fs'⟩
    cases convRes with
    | error e => rfl
    | ok u =>
      cases u
      dsimp only
      split
      · rfl
      · rfl
  · with_unfolding_all rfl
  · with_unfolding_all rfl
  · with_unfolding_all rfl

/-- C9 witness: the no-conversion clause applied to the `a2` chapter of the
3-author corpus, which already contains `u2.wav`. -/
theorem c9_lazy_conversion_witness :
    (fs3.children "r/a2/c").filter (fun d => pyEndsWith d (".wav")) ≠ []
    ∧ ∃ r, prep3.processChapter fs3 "wav" "r/a2" ⟨[], []⟩ "c" = (r, prep3, fs3) :=
  ⟨by decide,
   (c9_lazy_conversion prep3 fs3 "wav" "r/a2" "c" ⟨[], []⟩
      (fs3.children "r/a2/c") (by with_unfolding_all rfl)).1 (by decide)⟩

/-! ## Lemmas on the result join (claim C1) -/

lemma dictGet?_eq_none_iff {α β : Type} [DecidableEq α]
    (d : Dict α β) (k : α) : dictGet? d k = none ↔ k ∉ dictKeys d := by
  induction d with
  | nil => simp [dictGet?, dictKeys]
  | cons e rest ih =>
    by_cases h : k = e.1
    · simp [dictGet?, dictKeys, h]
    · simp [dictGet?, dictKeys, h, ih]

lemma dictKeys_insert {α β : Type} [DecidableEq α]
    (d : Dict α β) (k : α) (v : β) :
    dictKeys (dictInsert d k v)
      = if k ∈ dictKeys d then dictKeys d else dictKeys d ++ [k] := by
  induction d with
  | nil => simp [dictInsert, dictKeys]
  | cons e rest ih =>
    by_cases h : k = e.1
    · simp [dictInsert, dictKeys, h]
    · have hL : dictKeys (dictInsert (e :: rest) k v)
          = e.1 :: dictKeys (dictInsert rest k v) := by
        simp [dictInsert, h, dictKeys]
      rw [hL, ih]
      by_cases hmem : k ∈ dictKeys rest
      · rw [if_pos hmem, if_pos (by simp [dictKeys]; right; simpa [dictKeys] using hmem)]
        simp [dictKeys]
      · rw [if_neg hmem,
          if_neg (by simp [dictKeys, h]; simpa [dictKeys] using hmem)]
        simp [dictKeys]

lemma dictInsert_keys_nodup {α β : Type} [DecidableEq α]
    (d : Dict α β) (k : α) (v : β) (h : (dictKeys d).Nodup) :
    (dictKeys (dictInsert d k v)).Nodup := by
  rw [dictKeys_insert]
  by_cases hmem : k ∈ dictKeys d
  · simpa [hmem] using h
  · simp only [if_neg hmem]
    rw [List.nodup_append]
    exact ⟨h, List.nodup_singleton k,
      fun a ha hak => hmem ((List.mem_singleton.mp hak) ▸ ha)⟩

lemma foldl_phonStep_nodup (dict : Dict String (List String)) :
    ∀ (ts : List (String × String)) (acc : Dict String (List String)),
      (dictKeys acc).Nodup →
      (dictKeys (ts.foldl (phonStep dict) acc)).Nodup := by
  intro ts
  induction ts with
  | nil => intro acc h; exact h
  | cons kv rest ih =>
    intro acc h
    rw [List.foldl_cons]
    apply ih
    unfold phonStep
    cases phonemesOfWords dict (pySplitWs kv.2) with
    | none => exact h
    | some phrase => exact dictInsert_keys_nodup acc kv.1 (pyDropLast phrase) h

/-- The phoneme map produced by `_get_phoneme_transcription` has no
duplicate keys. -/
lemma getPhonemeTranscription_nodup (prep : AudioPrep)
    (ts : Dict String String) :
    (dictKeys (prep.getPhonemeTranscription ts)).Nodup :=
  foldl_phonStep_nodup prep.phon_dict ts [] List.nodup_nil

lemma join_fold_not_mem (scaled : Dict String Matrix') :
    ∀ (phon : List (String × List String)) (acc res : Dict String (List String × Matrix'))
      (k : String), k ∉ phon.map Prod.fst →
      phon.foldlM (joinStep scaled) acc = .ok res →
      dictGet? res k = dictGet? acc k := by
  intro phon
  induction phon with
  | nil =>
    intro acc res k _ hfold
    simp only [List.foldlM_nil] at hfold
    cases hfold
    rfl
  | cons kv rest ih =>
    intro acc res k hk hfold
    simp only [List.map_cons, List.mem_cons, not_or] at hk
    simp only [List.foldlM_cons] at hfold
    unfold joinStep dictGet at hfold
    cases hm : dictGet? scaled kv.1 with
    | none =>
      rw [hm] at hfold
      cases hfold
    | some m =>
      rw [hm] at hfold
      have hfold' :
          rest.foldlM (joinStep scaled) (dictInsert acc kv.1 (kv.2, m)) = .ok res :=
        hfold
      rw [ih _ res k hk.2 hfold', dictGet?_insert_ne acc kv.1 (kv.2, m) k hk.1]

lemma join_fold_get (scaled : Dict String Matrix') :
    ∀ (phon : List (String × List String)) (acc res : Dict String (List String × Matrix'))
      (k : String),
      (phon.map Prod.fst).Nodup →
      (∀ k' ∈ phon.map Prod.fst, dictGet? acc k' = none) →
      phon.foldlM (joinStep scaled) acc = .ok res →
      dictGet? res k
        = (dictGet? phon k).elim (dictGet? acc k)
            (fun ph => (dictGet? scaled k).map (fun m => (ph, m))) := by
  intro phon
  induction phon with
  | nil =>
    intro acc res k _ _ hfold
    simp only [List.foldlM_nil] at hfold
    cases hfold
    simp [dictGet?]
  | cons kv rest ih =>
    intro acc res k hnd hacc hfold
    obtain ⟨k₀, v₀⟩ := kv
    simp only [List.map_cons, List.nodup_cons] at hnd
    simp only [List.foldlM_cons] at hfold
    unfold joinStep dictGet at hfold
    cases hm : dictGet? scaled k₀ with
    | none =>
      rw [hm] at hfold
      cases hfold
    | some m =>
      rw [hm] at hfold
      have hfold' :
          rest.foldlM (joinStep scaled) (dictInsert acc k₀ (v₀, m)) = .ok res :=
        hfold
      by_cases hk : k = k₀
      · subst hk
        rw [join_fold_not_mem scaled rest _ res k hnd.1 hfold']
        have hget : dictGet? ((k, v₀) :: rest) k = some v₀ := by simp [dictGet?]
        rw [hget, dictGet?_insert_self acc k (v₀, m)]
        simp [Option.elim, hm]
      · have hstep : dictGet? ((k₀, v₀) :: rest) k = dictGet? rest k := by
          simp [dictGet?, hk]
        rw [hstep,
          ih _ res k hnd.2 (fun k' hk' => by
            have hne : k' ≠ k₀ := fun he => hnd.1 (he ▸ hk')
            rw [dictGet?_insert_ne acc k₀ (v₀, m) k' hne]
            exact hacc k' (by simp [hk'])) hfold',
          dictGet?_insert_ne acc k₀ (v₀, m) k hk]

lemma join_missing_key (scaled : Dict String Matrix') :
    ∀ (phon : List (String × List String)) (acc : Dict String (List String × Matrix')),
      (∃ k ∈ phon.map Prod.fst, dictGet? scaled k = none) →
      phon.foldlM (joinStep scaled) acc = .error .keyError := by
  intro phon
  induction phon with
  | nil => intro acc h; simp at h
  | cons kv rest ih =>
    intro acc h
    simp only [List.foldlM_cons]
    unfold joinStep dictGet
    cases hm : dictGet? scaled kv.1 with
    | none => rfl
    | some m =>
      show rest.foldlM (joinStep scaled) (dictInsert acc kv.1 (kv.2, m))
          = .error .keyError
      apply ih
      obtain ⟨k, hk, hnone⟩ := h
      rcases List.mem_cons.mp hk with he | he
      · rw [he] at hnone; rw [hnone] at hm; cases hm
      · exact ⟨k, he, hnone⟩

/-! ## Claim C1: the batch-result join invariant -/

/-- C1, counterexample: (i) on `fsEmptyText`, whose transcript line `"u1 "`
has no words, `get_data` succeeds and returns key `u1` with an **empty**
phoneme sequence — refuting "has a non-empty phoneme sequence"; (ii) on
`fsNoFeat`, whose transcript names utterance `u1` while only `u2.wav`
exists, `get_data` raises a `KeyError` — refuting "utterances failing either
step are silently excluded … rather than causing … an error". -/
theorem c1_counterexample :
    (prepEmptyText.get_data kZero fsEmptyText "wav").1
        = .ok [("u1", ([], [List.replicate 13 (-1 : ℚ)]))]
    ∧ (prepNoFeat.get_data kZero fsNoFeat "wav").1 = .error .keyError := by
  constructor
  · with_unfolding_all rfl
  · with_unfolding_all rfl

/-- C1 (amended): every key of a successfully returned batch is present in
both the decoded-phoneme map and the scaled-feature map, with exactly those
two values paired (never a partial entry); utterances with no phoneme
transcription are silently absent from the result; but the phoneme sequence
may be empty, and an utterance with a transcription and no feature matrix
makes the join raise a `KeyError` (aborting the call) instead of being
excluded. -/
theorem c1_join_invariant :
    (∀ (scaled : Dict String Matrix') (phon : Dict String (List String))
        (res : Dict String (List String × Matrix')),
        (dictKeys phon).Nodup →
        joinResults scaled phon = .ok res →
        ∀ k v, dictGet? res k = some v →
          dictGet? phon k = some v.1 ∧ dictGet? scaled k = some v.2)
    ∧ (∀ (scaled : Dict String Matrix') (phon : Dict String (List String))
        (res : Dict String (List String × Matrix')) (k : String),
        joinResults scaled phon = .ok res →
        dictGet? phon k = none → dictGet? res k = none)
    ∧ (∀ (scaled : Dict String Matrix') (phon : Dict String (List String)),
        (∃ k ∈ dictKeys phon, dictGet? scaled k = none) →
        joinResults scaled phon = .error .keyError)
    ∧ (∀ (kernel : MfccKernel) (prep : AudioPrep) (fs : FS) (format : String)
        (res : Dict String (List String × Matrix')),
        (prep.get_data kernel fs format).1 = .ok res →
        ∃ scaled phon, (dictKeys phon).Nodup
          ∧ joinResults scaled phon = .ok res) := by
  refine ⟨?_, ?_, ?_, ?_⟩
  · intro scaled phon res hnd hjoin k v hv
    have hform := join_fold_get scaled phon [] res k hnd (fun _ _ => rfl) hjoin
    rw [hv] at hform
    cases hp : dictGet? phon k with
    | none => rw [hp] at hform; cases hform
    | some ph =>
      rw [hp] at hform
      simp only [Option.elim] at hform
      cases hs : dictGet? scaled k with
      | none => rw [hs] at hform; cases hform
      | some m =>
        rw [hs] at hform
        simp only [Option.map_some'] at hform
        cases hform
        exact ⟨rfl, rfl⟩
  · intro scaled phon res k hjoin hnone
    rw [join_fold_not_mem scaled phon [] res k
      ((dictGet?_eq_none_iff phon k).mp hnone) hjoin]
    rfl
  · intro scaled phon h
    exact join_missing_key scaled phon [] h
  · intro kernel prep fs format res hok
    revert hok
    simp only [AudioPrep.get_data]
    split
    · intro h; simp at h
    · split
      · intro h; simp at h
      · split
        · intro h; simp at h
        · rename_i acc prep' fs' heq
          split
          · intro h; simp at h
          · split
            · intro h; simp at h
            · rename_i x5 scaled hscaled x6 result hresult
              intro h
              simp only at h
              refine ⟨scaled, prep'.getPhonemeTranscription acc.transcripts,
                getPhonemeTranscription_nodup prep' acc.transcripts, ?_⟩
              rw [hresult]
              exact h

/-- C1 witness: the missing-feature clause instantiated at a phoneme map
with key `b` and a feature map that only knows key `a`: the join raises
`KeyError`. -/
theorem c1_join_invariant_witness :
    joinResults [("a", [[1]])] [("b", ["P"])] = .error PyErr.keyError :=
  c1_join_invariant.2.2.1 [("a", [[1]])] [("b", ["P"])]
    ⟨"b", by simp [dictKeys], by rfl⟩

end TdnnAsr
